import Mathlib

/-!
Verification development for the gosnmp tree-walking client (gosnmp.go).

The embedding follows the source file: the data model (`SnmpPDU`,
`SnmpPacket`, `Conn`), the request builders (`GetPacket`, `GetNextPacket`,
`GetBulkPacket`, `GetMultiPacket`), the single-shot operations with their
defer/recover boundary (`GetNext`, `Get`, `GetBulk`, `GetMulti`), and the
four walk engines (`Walk`, `StreamWalk`, `BulkWalk` via `bulkWalk`,
`StreamBulkWalk`).

The network is external to the source file: `sendPacket` performs a
marshal/write/read/unmarshal round trip through an opaque codec and UDP
socket.  It is represented by an oracle (`SendOutcome` for the single-shot
operations, `Dispatch` for the walk engines, which call the single-shot
operations).  Go while-loops become fuel-indexed recursion; a result of
`none` means the fuel ran out (the corresponding Go loop would still be
running), `some` means the Go function returned.

Observable side effects (one transport request per `GetNext`/`GetBulk`
call, channel sends, channel close) are recorded in an event trace
(`Ev`), so that statements such as "no request is issued" or "the channel
is closed exactly once" are expressible.
-/

set_option autoImplicit false

/-- Go `v.Value` is an `interface{}`; the code compares it with the string
literal `"endOfMib"` (dynamic type `string`).  Modelled as a small sum of
the dynamic types that matter, with `nilV` for the nil interface (the zero
value, used by the request builders which leave `Value` unset). -/
inductive SnmpValue where
  | nilV
  | str (s : String)
  | int (i : Int)
  deriving DecidableEq, Repr

/-- The end-of-tree sentinel value the bulk walk compares against
(`v.Value == "endOfMib"` in the source). -/
def endOfMibValue : SnmpValue := .str "endOfMib"

/-- SNMP BER type tag.  Only `Null` matters to this file (the request
builders fill `Type: Null`); other tags are grouped under `other`. -/
inductive SnmpType where
  | Null
  | other (code : Nat)
  deriving DecidableEq, Repr

/-- Variable binding.  Go struct `SnmpPDU{Name, Type, Value}`; the Go field
`Type` is called `PduType` here because `Type` is reserved in Lean. -/
structure SnmpPDU where
  Name : String
  PduType : SnmpType
  Value : SnmpValue
  deriving DecidableEq, Repr

/-- Request type constants (`GetRequest`, `GetNextRequest`,
`GetBulkRequest` in the snmp package).  `Unset` stands for the zero value
of the field in a fresh `new(SnmpPacket)`. -/
inductive SnmpRequestType where
  | Unset
  | GetRequest
  | GetNextRequest
  | GetBulkRequest
  deriving DecidableEq, Repr

/-- The request/response packet, fields as in the Go `SnmpPacket` the
source assigns to. -/
structure SnmpPacket where
  Version : Nat
  Community : String
  RequestType : SnmpRequestType
  Error : Nat
  ErrorIndex : Nat
  NonRepeaters : Nat
  MaxRepetitions : Nat
  Variables : List SnmpPDU
  deriving DecidableEq, Repr

/-- `new(SnmpPacket)`: the all-zero packet the builders start from. -/
def SnmpPacket.new : SnmpPacket :=
  { Version := 0, Community := "", RequestType := .Unset, Error := 0,
    ErrorIndex := 0, NonRepeaters := 0, MaxRepetitions := 0, Variables := [] }

/-- The session (`Conn`).  Transport handle, timeout and logger are
external (out of scope per the spec); the fields the request builders read
are kept. -/
structure Conn where
  Target : String
  Community : String
  Version : Nat
  deriving DecidableEq, Repr

/-- The distinct error values the modelled code produces.  `noOidGiven`
is `fmt.Errorf("No OID given\n")`; `noResponse` is the `sendPacket` error
`"No responses received."`; `requestErr` covers the remaining
marshal/write/read/decode failures and the message built by the recover
blocks. -/
inductive SnmpError where
  | noOidGiven
  | noResponse
  | requestErr (msg : String)
  deriving DecidableEq, Repr

/-- Go `strings.HasPrefix s pat`. -/
def hasPfx (s pat : String) : Bool := decide (pat.data <+: s.data)

/-- Go `strings.Index s pat > -1`: `pat` occurs somewhere in `s`
(substring containment, not anchored at the front). -/
def containsSub (s pat : String) : Bool := decide (pat.data <:+: s.data)

/-- Outcome of one `sendPacket` round trip as seen from a single-shot
operation: a decoded response, an ordinary error, or a Go panic raised
somewhere inside marshalling/transport/decoding. -/
inductive SendOutcome where
  | ok (p : SnmpPacket)
  | fail (e : SnmpError)
  | fault (msg : String)
  deriving DecidableEq, Repr

/-- Packet built by `Get` before it calls `sendPacket`. -/
def GetPacket (x : Conn) (oid : String) : SnmpPacket :=
  { SnmpPacket.new with
    Community := x.Community, Error := 0, ErrorIndex := 0,
    RequestType := .GetRequest, Version := 1,
    Variables := [{ Name := oid, PduType := .Null, Value := .nilV }] }

/-- Packet built by `GetNext` before it calls `sendPacket`. -/
def GetNextPacket (x : Conn) (oid : String) : SnmpPacket :=
  { SnmpPacket.new with
    Community := x.Community, Error := 0, ErrorIndex := 0,
    RequestType := .GetNextRequest, Version := 1,
    Variables := [{ Name := oid, PduType := .Null, Value := .nilV }] }

/-- Packet built by `GetBulk`: the `make`+`for` loop fills one Null-typed
binding per input OID, in order. -/
def GetBulkPacket (x : Conn) (nonRepeaters maxRepetitions : Nat)
    (oids : List String) : SnmpPacket :=
  { SnmpPacket.new with
    Community := x.Community, NonRepeaters := nonRepeaters,
    MaxRepetitions := maxRepetitions, RequestType := .GetBulkRequest,
    Version := 1,
    Variables := oids.map (fun oid => { Name := oid, PduType := .Null, Value := .nilV }) }

/-- Packet built by `GetMulti` (operation kind `GetRequest`). -/
def GetMultiPacket (x : Conn) (oids : List String) : SnmpPacket :=
  { SnmpPacket.new with
    Community := x.Community, Error := 0, ErrorIndex := 0,
    RequestType := .GetRequest, Version := 1,
    Variables := oids.map (fun oid => { Name := oid, PduType := .Null, Value := .nilV }) }

/-- The shared tail of the four single-shot operations.  Each declares
`var err error`, defers a `recover` that assigns to that local `err`, and
ends in `return x.sendPacket(packet)`.  The result parameters are
UNNAMED, so when `sendPacket` panics the deferred recover runs, swallows
the panic, assigns the converted error to the dead local `err`, and the
function returns the zero values of its result types: `(nil, nil)`. -/
def dispatchBoundary (send : SnmpPacket → SendOutcome) (packet : SnmpPacket) :
    Option SnmpPacket × Option SnmpError :=
  match send packet with
  | .ok p => (some p, none)
  | .fail e => (none, some e)
  | .fault _ => (none, none)

/-- `Conn.GetNext` (packet construction plus dispatch boundary). -/
def GetNext (x : Conn) (send : SnmpPacket → SendOutcome) (oid : String) :
    Option SnmpPacket × Option SnmpError :=
  dispatchBoundary send (GetNextPacket x oid)

/-- `Conn.Get`. -/
def Get (x : Conn) (send : SnmpPacket → SendOutcome) (oid : String) :
    Option SnmpPacket × Option SnmpError :=
  dispatchBoundary send (GetPacket x oid)

/-- `Conn.GetBulk`. -/
def GetBulk (x : Conn) (send : SnmpPacket → SendOutcome)
    (nonRepeaters maxRepetitions : Nat) (oids : List String) :
    Option SnmpPacket × Option SnmpError :=
  dispatchBoundary send (GetBulkPacket x nonRepeaters maxRepetitions oids)

/-- `Conn.GetMulti`. -/
def GetMulti (x : Conn) (send : SnmpPacket → SendOutcome) (oids : List String) :
    Option SnmpPacket × Option SnmpError :=
  dispatchBoundary send (GetMultiPacket x oids)

/-- A sample session for concrete evaluations. -/
def sampleConn : Conn := { Target := "127.0.0.1:161", Community := "public", Version := 3 }

/-- Observable events of a walk: a transport request (one `GetNext` or
`GetBulk` call, hence one send attempt), a value pushed into the result
channel, and the channel close. -/
inductive Ev where
  | req (oid : String)
  | emit (v : SnmpPDU)
  | closeChan
  deriving DecidableEq, Repr

/-- The session operations a walk engine calls, with the Go result shape
`(*SnmpPacket, error)`.  `(none, none)` is the shape the recover slip in
`GetNext`/`GetBulk` produces on a panic. -/
structure Dispatch where
  getNext : String → Option SnmpPacket × Option SnmpError
  getBulk : Nat → Nat → String → Option SnmpPacket × Option SnmpError

/-- The `for` loop of `Conn.Walk` / `Conn.StreamWalk`, one fuel unit per
iteration.  `requestOid` is the fixed original root; `oid` is the moving
cursor.  The in-range test is the source's
`strings.Index(res.Variables[0].Name, requestOid) > -1`.  On a dispatch
error the source does `return results, err`, i.e. keeps what was already
accumulated; accumulation-by-append is rendered as cons on the way out of
the recursion. -/
def walkAux (d : Dispatch) (requestOid : String) :
    Nat → String → List Ev × Option (List SnmpPDU × Option SnmpError)
  | 0, _ => ([], none)
  | fuel+1, oid =>
    match d.getNext oid with
    | (_, some e) => ([Ev.req oid], some ([], some e))
    | (none, none) => ([Ev.req oid], some ([], none))
    | (some res, none) =>
      match res.Variables with
      | [] => ([Ev.req oid], some ([], none))
      | v :: _ =>
        if containsSub v.Name requestOid then
          match walkAux d requestOid fuel v.Name with
          | (tr, none) => (Ev.req oid :: tr, none)
          | (tr, some (tail, e)) => (Ev.req oid :: tr, some (v :: tail, e))
        else ([Ev.req oid], some ([], none))

/-- `Conn.Walk`: rejects the empty OID before any request, else runs the
`getNext` loop from the root. -/
def Walk (d : Dispatch) (oid : String) (fuel : Nat) :
    List Ev × Option (List SnmpPDU × Option SnmpError) :=
  if oid = "" then ([], some ([], some .noOidGiven))
  else walkAux d oid fuel oid

/-- The loop of `Conn.StreamWalk`: same control flow as `walkAux`, but
in-range variables are pushed into the channel and every return path
closes the channel first (the `break` paths close it right after the
loop).  The returned value is the function's `error` result. -/
def streamWalkAux (d : Dispatch) (requestOid : String) :
    Nat → String → List Ev × Option (Option SnmpError)
  | 0, _ => ([], none)
  | fuel+1, oid =>
    match d.getNext oid with
    | (_, some e) => ([Ev.req oid, Ev.closeChan], some (some e))
    | (none, none) => ([Ev.req oid, Ev.closeChan], some none)
    | (some res, none) =>
      match res.Variables with
      | [] => ([Ev.req oid, Ev.closeChan], some none)
      | v :: _ =>
        if containsSub v.Name requestOid then
          match streamWalkAux d requestOid fuel v.Name with
          | (tr, r) => (Ev.req oid :: Ev.emit v :: tr, r)
        else ([Ev.req oid, Ev.closeChan], some none)

/-- `Conn.StreamWalk`: on an empty OID it closes the channel and returns
the error; otherwise it runs the loop. -/
def StreamWalk (d : Dispatch) (oid : String) (fuel : Nat) :
    List Ev × Option (Option SnmpError) :=
  if oid = "" then ([Ev.closeChan], some (some .noOidGiven))
  else streamWalkAux d oid fuel oid

/-- The `for i, v := range response.Variables` body of `Conn._bulkWalk`,
parameterised by the recursive call (`recurse` is `_bulkWalk` at the next
seed).  In order, per variable: the sentinel check (`return` with the
results so far and nil error), the `strings.HasPrefix` in-range filter
(append and, when `v` is the last variable of the batch, recurse: on
error return the results so far including `v` and the error — the
sub-results are NOT appended — else append the sub-results). -/
def bulkBatch (recurse : String → List Ev × Option (List SnmpPDU × Option SnmpError))
    (rootOID : String) : List SnmpPDU → List Ev × Option (List SnmpPDU × Option SnmpError)
  | [] => ([], some ([], none))
  | v :: vs =>
    if v.Value = endOfMibValue then ([], some ([], none))
    else if hasPfx v.Name rootOID then
      if vs.isEmpty then
        match recurse v.Name with
        | (tr, none) => (tr, none)
        | (tr, some (_, some e)) => (tr, some ([v], some e))
        | (tr, some (sub, none)) => (tr, some (v :: sub, none))
      else
        match bulkBatch recurse rootOID vs with
        | (tr, none) => (tr, none)
        | (tr, some (rest, e)) => (tr, some (v :: rest, e))
    else bulkBatch recurse rootOID vs

/-- `Conn._bulkWalk`: one `GetBulk(0, maxRepetitions, searchingOID)` call
per fuel unit, then the batch loop.  On a dispatch error the level
returns `(nil, err)`.  The source reads `response.Variables` without a
nil check; a `(nil, nil)` dispatch result (only producible through the
recover slip) would crash in Go and is modelled as the empty batch — the
theorems about bulk walks either use a dispatch that never produces that
shape or assume it away explicitly. -/
def bulkWalkAux (d : Dispatch) (m : Nat) (rootOID : String) :
    Nat → String → List Ev × Option (List SnmpPDU × Option SnmpError)
  | 0, _ => ([], none)
  | fuel+1, searchingOID =>
    match d.getBulk 0 m searchingOID with
    | (_, some e) => ([Ev.req searchingOID], some ([], some e))
    | (pkt?, none) =>
      let vars := (pkt?.map SnmpPacket.Variables).getD []
      match bulkBatch (bulkWalkAux d m rootOID fuel) rootOID vars with
      | (tr, r) => (Ev.req searchingOID :: tr, r)

/-- `Conn.BulkWalk`: rejects the empty OID before any request, then runs
`_bulkWalk` with `searchingOID = rootOID = oid`. -/
def BulkWalk (d : Dispatch) (m : Nat) (oid : String) (fuel : Nat) :
    List Ev × Option (List SnmpPDU × Option SnmpError) :=
  if oid = "" then ([], some ([], some .noOidGiven))
  else bulkWalkAux d m oid fuel oid

/-- The batch loop of `Conn.StreamBulkWalk`.  Same classification as
`bulkBatch`, but in-range variables are sent to the channel as soon as
classified, the recursion's results are then forwarded to the channel,
and every return path closes the channel.  (The source sends `&v`, the
address of the shared loop variable, rather than a copy; the trace
records the value classified at that point.)  The returned value is the
function's `error` result. -/
def streamBulkBatch (recurse : String → List Ev × Option (List SnmpPDU × Option SnmpError))
    (rootOID : String) : List SnmpPDU → List Ev × Option (Option SnmpError)
  | [] => ([Ev.closeChan], some none)
  | v :: vs =>
    if v.Value = endOfMibValue then ([Ev.closeChan], some none)
    else if hasPfx v.Name rootOID then
      if vs.isEmpty then
        match recurse v.Name with
        | (tr, none) => (Ev.emit v :: tr, none)
        | (tr, some (_, some e)) => (Ev.emit v :: tr ++ [Ev.closeChan], some (some e))
        | (tr, some (sub, none)) =>
          (Ev.emit v :: tr ++ sub.map Ev.emit ++ [Ev.closeChan], some none)
      else
        match streamBulkBatch recurse rootOID vs with
        | (tr, r) => (Ev.emit v :: tr, r)
    else streamBulkBatch recurse rootOID vs

/-- `Conn.StreamBulkWalk`.  Note: unlike the other three walk entry
points, the source has NO empty-OID check here; the first `GetBulk` is
issued unconditionally.  The recursion below the first batch is
`_bulkWalk`. -/
def StreamBulkWalk (d : Dispatch) (m : Nat) (oid : String) (fuel : Nat) :
    List Ev × Option (Option SnmpError) :=
  match d.getBulk 0 m oid with
  | (_, some e) => ([Ev.req oid, Ev.closeChan], some (some e))
  | (pkt?, none) =>
    let vars := (pkt?.map SnmpPacket.Variables).getD []
    match streamBulkBatch (bulkWalkAux d m oid fuel) oid vars with
    | (tr, r) => (Ev.req oid :: tr, r)

/-- Position of the first entry named `oid` in a simulated agent's entry
list: `some rest` is everything after that entry, `none` if no entry has
that name. -/
def afterName (oid : String) : List SnmpPDU → Option (List SnmpPDU)
  | [] => none
  | p :: rest => if p.Name = oid then some rest else afterName oid rest

/-- Entries a simulated agent serves after cursor `oid`: everything after
the entry named `oid`, or the whole list when `oid` names no entry (the
initial root OID sits below the subtree's first entry). -/
def agentAfter (oid : String) (mib : List SnmpPDU) : List SnmpPDU :=
  (afterName oid mib).getD mib

/-- A simulated agent serving the fixed entry list `mib` in order:
`getNext` answers with the single next entry, `getBulk` with the next
`maxRepetitions` entries.  An exhausted agent yields the `sendPacket`
empty-response error (`"No responses received."`), never the `(nil, nil)`
shape. -/
def agentDispatch (mib : List SnmpPDU) : Dispatch where
  getNext := fun oid =>
    match agentAfter oid mib with
    | [] => (none, some SnmpError.noResponse)
    | p :: _ => (some { SnmpPacket.new with Variables := [p] }, none)
  getBulk := fun _ m oid =>
    match (agentAfter oid mib).take m with
    | [] => (none, some SnmpError.noResponse)
    | p :: ps => (some { SnmpPacket.new with Variables := p :: ps }, none)

/-! Concrete data for counterexamples and witnesses. -/

/-- An entry whose name contains `"1.3"` as an interior substring but does
not start with it. -/
def v913 : SnmpPDU := { Name := "9.1.3", PduType := .other 0, Value := .nilV }

/-- An entry whose name neither starts with nor contains `"1.3"`. -/
def v88 : SnmpPDU := { Name := "8.8", PduType := .other 0, Value := .nilV }

/-- The packet a simulated agent answers with when serving `v913`. -/
def pkt913 : SnmpPacket := { SnmpPacket.new with Variables := [v913] }

/-- An in-subtree entry of `"1.3"` carrying the sentinel value. -/
def sent131 : SnmpPDU := { Name := "1.3.1", PduType := .other 0, Value := .str "endOfMib" }

/-- An out-of-subtree successor of the `"1.3"` subtree. -/
def succ24 : SnmpPDU := { Name := "2.4", PduType := .other 0, Value := .nilV }

/-- An ordinary in-subtree entry of `"1.3"`. -/
def v132 : SnmpPDU := { Name := "1.3.2", PduType := .other 0, Value := .int 1 }

/-- A second ordinary in-subtree entry of `"1.3"`. -/
def v133 : SnmpPDU := { Name := "1.3.3", PduType := .other 0, Value := .int 2 }

/-- An in-subtree entry carrying the sentinel value, used ahead of `v135`. -/
def sent139 : SnmpPDU := { Name := "1.3.9", PduType := .other 0, Value := .str "endOfMib" }

/-- An ordinary in-subtree entry of `"1.3"` placed after a sentinel. -/
def v135 : SnmpPDU := { Name := "1.3.5", PduType := .other 0, Value := .int 1 }

/-- An in-subtree entry of `"1.3"` carrying the sentinel value, used as a
walk step input. -/
def sent137 : SnmpPDU := { Name := "1.3.7", PduType := .other 0, Value := .str "endOfMib" }

/-- The packet a simulated agent answers with when serving `sent137`. -/
def pkt137 : SnmpPacket := { SnmpPacket.new with Variables := [sent137] }

/-- The packet a simulated agent answers with when serving `v132` alone. -/
def pktV132 : SnmpPacket := { SnmpPacket.new with Variables := [v132] }

/-- A probe recursion that records being called: its trace contains a
request event, so a batch that never recurses has an empty trace. -/
def rcProbe : String → List Ev × Option (List SnmpPDU × Option SnmpError) :=
  fun n => ([Ev.req n], some ([], none))

/-!  Theorems.  -/

/-- A string that starts with `pat` also contains `pat`. -/
theorem containsSub_of_hasPfx (s pat : String) (h : hasPfx s pat = true) :
    containsSub s pat = true := by
  simp only [hasPfx, decide_eq_true_eq] at h
  obtain ⟨t, ht⟩ := h
  simp only [containsSub, decide_eq_true_eq]
  exact ⟨[], t, by simpa using ht⟩

/-- A string that does not contain `pat` does not start with it. -/
theorem hasPfx_eq_false_of_not_contains (s pat : String)
    (h : containsSub s pat = false) : hasPfx s pat = false := by
  by_contra hp
  rw [Bool.not_eq_false] at hp
  rw [containsSub_of_hasPfx s pat hp] at h
  cases h

/-- `afterName` misses when no entry carries the name. -/
theorem afterName_eq_none (oid : String) :
    ∀ l : List SnmpPDU, oid ∉ l.map SnmpPDU.Name → afterName oid l = none := by
  intro l
  induction l with
  | nil => intro _; rfl
  | cons p rest ih =>
    intro h
    simp only [List.map_cons, List.mem_cons] at h
    push_neg at h
    rw [afterName, if_neg (fun hp => h.1 hp.symm)]
    exact ih h.2

/-- A cursor naming no entry (the initial root) resumes at the start. -/
theorem agentAfter_not_mem (oid : String) (l : List SnmpPDU)
    (h : oid ∉ l.map SnmpPDU.Name) : agentAfter oid l = l := by
  simp [agentAfter, afterName_eq_none oid l h]

/-- `afterName` finds the first entry with the given name. -/
theorem afterName_found (v : SnmpPDU) :
    ∀ xs ys : List SnmpPDU, v.Name ∉ xs.map SnmpPDU.Name →
      afterName v.Name (xs ++ v :: ys) = some ys := by
  intro xs
  induction xs with
  | nil => intro ys _; simp [afterName]
  | cons p rest ih =>
    intro ys h
    simp only [List.map_cons, List.mem_cons] at h
    push_neg at h
    rw [List.cons_append, afterName, if_neg (fun hp => h.1 hp.symm)]
    exact ih ys h.2

/-- With distinct names, a cursor equal to a served name resumes right
after that entry. -/
theorem agentAfter_found (v : SnmpPDU) (xs ys : List SnmpPDU)
    (h : ((xs ++ v :: ys).map SnmpPDU.Name).Nodup) :
    agentAfter v.Name (xs ++ v :: ys) = ys := by
  have hmem : v.Name ∉ xs.map SnmpPDU.Name := by
    simp only [List.map_append, List.nodup_append] at h
    exact fun hx => h.2.2 hx (by simp)
  simp [agentAfter, afterName_found v xs ys hmem]

/-- Claim C9: every request builder produces exactly one Null-typed
binding per input OID in input order with the value unset, the operation
kind of the requested operation (`GetMulti` is a multi-OID Get), the
session's community string, and the hard-coded wire version `1`,
independent of the session's configured `Version`. -/
theorem builders_shape (x : Conn) (oid : String) (oids : List String)
    (nr mr v1 v2 : Nat) :
    ((GetPacket x oid).Variables = [{ Name := oid, PduType := .Null, Value := .nilV }] ∧
      (GetPacket x oid).RequestType = .GetRequest ∧
      (GetPacket x oid).Community = x.Community ∧ (GetPacket x oid).Version = 1) ∧
    ((GetNextPacket x oid).Variables = [{ Name := oid, PduType := .Null, Value := .nilV }] ∧
      (GetNextPacket x oid).RequestType = .GetNextRequest ∧
      (GetNextPacket x oid).Community = x.Community ∧ (GetNextPacket x oid).Version = 1) ∧
    ((GetBulkPacket x nr mr oids).Variables
        = oids.map (fun o => { Name := o, PduType := .Null, Value := .nilV }) ∧
      (GetBulkPacket x nr mr oids).RequestType = .GetBulkRequest ∧
      (GetBulkPacket x nr mr oids).Community = x.Community ∧
      (GetBulkPacket x nr mr oids).Version = 1) ∧
    ((GetMultiPacket x oids).Variables
        = oids.map (fun o => { Name := o, PduType := .Null, Value := .nilV }) ∧
      (GetMultiPacket x oids).RequestType = .GetRequest ∧
      (GetMultiPacket x oids).Community = x.Community ∧
      (GetMultiPacket x oids).Version = 1) ∧
    (GetPacket { x with Version := v1 } oid = GetPacket { x with Version := v2 } oid ∧
      GetNextPacket { x with Version := v1 } oid = GetNextPacket { x with Version := v2 } oid ∧
      GetBulkPacket { x with Version := v1 } nr mr oids
        = GetBulkPacket { x with Version := v2 } nr mr oids ∧
      GetMultiPacket { x with Version := v1 } oids
        = GetMultiPacket { x with Version := v2 } oids) :=
  ⟨⟨rfl, rfl, rfl, rfl⟩, ⟨rfl, rfl, rfl, rfl⟩, ⟨rfl, rfl, rfl, rfl⟩,
    ⟨rfl, rfl, rfl, rfl⟩, rfl, rfl, rfl, rfl⟩

/-- Claim C8 (code bug): when the dispatch step panics, every single-shot
operation returns `(nil, nil)` — the deferred `recover` assigns the
converted error to a local `err` that is not a result parameter (the
results are unnamed), so the caller observes a nil error together with a
nil response, not the `RequestError` the claim (and the code's own
recover block) intends. -/
theorem getters_nil_nil_on_fault :
    GetNext sampleConn (fun _ => .fault "runtime fault in marshal") "1.3" = (none, none) ∧
    Get sampleConn (fun _ => .fault "runtime fault in marshal") "1.3" = (none, none) ∧
    GetBulk sampleConn (fun _ => .fault "runtime fault in marshal") 0 10 ["1.3"] = (none, none) ∧
    GetMulti sampleConn (fun _ => .fault "runtime fault in marshal") ["1.3"] = (none, none) :=
  ⟨rfl, rfl, rfl, rfl⟩

/-- Claim C4 counterexample: `StreamBulkWalk` called with the empty OID
string performs a `GetBulk` dispatch (a request event appears in its
trace) and surfaces that dispatch's error, not the invalid-input error —
the source lacks the empty-OID guard the other three entry points have. -/
theorem streamBulkWalk_empty_oid_sends :
    StreamBulkWalk (agentDispatch []) 1 "" 3
      = ([Ev.req "", Ev.closeChan], some (some SnmpError.noResponse)) ∧
    Ev.req "" ∈ (StreamBulkWalk (agentDispatch []) 1 "" 3).1 ∧
    SnmpError.noResponse ≠ SnmpError.noOidGiven := by
  refine ⟨rfl, ?_, by decide⟩
  rw [show StreamBulkWalk (agentDispatch []) 1 "" 3
      = ([Ev.req "", Ev.closeChan], some (some SnmpError.noResponse)) from rfl]
  simp

/-- Claim C4 (amended): `Walk`, `StreamWalk` and `BulkWalk` reject the
empty OID with the invalid-input error before any dispatch call (their
traces contain no request event); `StreamBulkWalk` does not (see the
counterexample). -/
theorem empty_oid_rejected_no_send (d : Dispatch) (m fuel : Nat) :
    Walk d "" fuel = ([], some ([], some SnmpError.noOidGiven)) ∧
    StreamWalk d "" fuel = ([Ev.closeChan], some (some SnmpError.noOidGiven)) ∧
    BulkWalk d m "" fuel = ([], some ([], some SnmpError.noOidGiven)) := by
  refine ⟨?_, ?_, ?_⟩ <;> simp [Walk, StreamWalk, BulkWalk]

/-! Per-branch evaluation equations for the loop bodies. -/

/-- `Walk` loop: dispatch error branch. -/
theorem walkAux_err (d : Dispatch) (root : String) (fuel : Nat) (oid : String)
    (pkt? : Option SnmpPacket) (e : SnmpError) (hd : d.getNext oid = (pkt?, some e)) :
    walkAux d root (fuel+1) oid = ([Ev.req oid], some ([], some e)) := by
  rw [walkAux, hd]
  rcases pkt? with _ | p <;> rfl

/-- `Walk` loop: nil-response branch. -/
theorem walkAux_nilnil (d : Dispatch) (root : String) (fuel : Nat) (oid : String)
    (hd : d.getNext oid = (none, none)) :
    walkAux d root (fuel+1) oid = ([Ev.req oid], some ([], none)) := by
  rw [walkAux, hd]

/-- `Walk` loop: empty-variables branch. -/
theorem walkAux_empty (d : Dispatch) (root : String) (fuel : Nat) (oid : String)
    (pkt : SnmpPacket) (hd : d.getNext oid = (some pkt, none)) (hv : pkt.Variables = []) :
    walkAux d root (fuel+1) oid = ([Ev.req oid], some ([], none)) := by
  rw [walkAux, hd]
  dsimp only
  rw [hv]

/-- `Walk` loop: subtree-boundary branch (first variable fails the
containment test). -/
theorem walkAux_out (d : Dispatch) (root : String) (fuel : Nat) (oid : String)
    (pkt : SnmpPacket) (v : SnmpPDU) (vs : List SnmpPDU)
    (hd : d.getNext oid = (some pkt, none)) (hv : pkt.Variables = v :: vs)
    (hc : containsSub v.Name root = false) :
    walkAux d root (fuel+1) oid = ([Ev.req oid], some ([], none)) := by
  rw [walkAux, hd]
  dsimp only
  rw [hv]
  dsimp only
  rw [hc]
  rfl

/-- `Walk` loop: in-range branch — emit the variable, move the cursor to
its name, continue. -/
theorem walkAux_in (d : Dispatch) (root : String) (fuel : Nat) (oid : String)
    (pkt : SnmpPacket) (v : SnmpPDU) (vs : List SnmpPDU)
    (hd : d.getNext oid = (some pkt, none)) (hv : pkt.Variables = v :: vs)
    (hc : containsSub v.Name root = true) :
    walkAux d root (fuel+1) oid =
      (Ev.req oid :: (walkAux d root fuel v.Name).1,
       Option.map (fun p => (v :: p.1, p.2)) (walkAux d root fuel v.Name).2) := by
  rw [walkAux, hd]
  dsimp only
  rw [hv]
  dsimp only
  rw [hc]
  rcases hrec : walkAux d root fuel v.Name with ⟨tr, r⟩
  rcases r with _ | ⟨tail, e⟩ <;> rfl

/-- Every variable in a terminated sequential walk's result list passes
the `strings.Index` containment test against the original root. -/
theorem walkAux_emits (d : Dispatch) (root : String) :
    ∀ (fuel : Nat) (cursor : String) (res : List SnmpPDU) (e : Option SnmpError),
      (walkAux d root fuel cursor).2 = some (res, e) →
      ∀ v ∈ res, containsSub v.Name root = true := by
  intro fuel
  induction fuel with
  | zero => intro cursor res e h; simp [walkAux] at h
  | succ n ih =>
    intro cursor res e h
    rcases hd : d.getNext cursor with ⟨pkt?, err?⟩
    rcases err? with _ | e'
    · rcases pkt? with _ | pkt
      · rw [walkAux_nilnil d root n cursor hd] at h
        simp only [Option.some.injEq, Prod.mk.injEq] at h
        intro v hv; rw [← h.1] at hv; cases hv
      · rcases hvars : pkt.Variables with _ | ⟨v, vs⟩
        · rw [walkAux_empty d root n cursor pkt hd hvars] at h
          simp only [Option.some.injEq, Prod.mk.injEq] at h
          intro v hv; rw [← h.1] at hv; cases hv
        · rcases hcond : containsSub v.Name root with _ | _
          · rw [walkAux_out d root n cursor pkt v vs hd hvars hcond] at h
            simp only [Option.some.injEq, Prod.mk.injEq] at h
            intro w hw; rw [← h.1] at hw; cases hw
          · rw [walkAux_in d root n cursor pkt v vs hd hvars hcond] at h
            rcases hrec : (walkAux d root n v.Name).2 with _ | ⟨tail, e2⟩
            · rw [hrec] at h; cases h
            · rw [hrec] at h
              simp only [Option.map_some', Option.some.injEq, Prod.mk.injEq] at h
              intro w hw
              rw [← h.1] at hw
              rcases List.mem_cons.mp hw with rfl | hw
              · exact hcond
              · exact ih v.Name tail e2 (by rw [hrec]) w hw
    · rw [walkAux_err d root n cursor pkt? e' hd] at h
      simp only [Option.some.injEq, Prod.mk.injEq] at h
      intro v hv; rw [← h.1] at hv; cases hv

/-- `Walk` one-step boundary characterisation: after a successful
`getNext` with first variable `v`, the loop stops (normally, emitting
nothing further) exactly when `v.Name` fails the containment test. -/
theorem walkAux_step_boundary (d : Dispatch) (root : String) (fuel : Nat)
    (cursor : String) (pkt : SnmpPacket) (v : SnmpPDU) (vs : List SnmpPDU)
    (hget : d.getNext cursor = (some pkt, none)) (hvars : pkt.Variables = v :: vs) :
    ((walkAux d root (fuel+1) cursor).2 = some ([], none) ↔
      containsSub v.Name root = false) := by
  by_cases hcond : containsSub v.Name root = true
  · rw [walkAux_in d root fuel cursor pkt v vs hget hvars hcond, hcond]
    constructor
    · intro h
      exfalso
      rcases hrec : (walkAux d root fuel v.Name).2 with _ | ⟨tail, e2⟩
      · rw [hrec] at h; cases h
      · rw [hrec] at h
        simp only [Option.map_some', Option.some.injEq, Prod.mk.injEq] at h
        exact absurd h.1 (List.cons_ne_nil v tail)
    · intro h
      exact absurd h (by decide)
  · rw [Bool.not_eq_true] at hcond
    rw [walkAux_out d root fuel cursor pkt v vs hget hvars hcond, hcond]
    simp

/-- `StreamWalk` loop: dispatch error branch (close, then return the
error). -/
theorem streamWalkAux_err (d : Dispatch) (root : String) (fuel : Nat) (oid : String)
    (pkt? : Option SnmpPacket) (e : SnmpError) (hd : d.getNext oid = (pkt?, some e)) :
    streamWalkAux d root (fuel+1) oid = ([Ev.req oid, Ev.closeChan], some (some e)) := by
  rw [streamWalkAux, hd]
  rcases pkt? with _ | p <;> rfl

/-- `StreamWalk` loop: nil-response branch. -/
theorem streamWalkAux_nilnil (d : Dispatch) (root : String) (fuel : Nat) (oid : String)
    (hd : d.getNext oid = (none, none)) :
    streamWalkAux d root (fuel+1) oid = ([Ev.req oid, Ev.closeChan], some none) := by
  rw [streamWalkAux, hd]

/-- `StreamWalk` loop: empty-variables branch. -/
theorem streamWalkAux_empty (d : Dispatch) (root : String) (fuel : Nat) (oid : String)
    (pkt : SnmpPacket) (hd : d.getNext oid = (some pkt, none)) (hv : pkt.Variables = []) :
    streamWalkAux d root (fuel+1) oid = ([Ev.req oid, Ev.closeChan], some none) := by
  rw [streamWalkAux, hd]
  dsimp only
  rw [hv]

/-- `StreamWalk` loop: subtree-boundary branch. -/
theorem streamWalkAux_out (d : Dispatch) (root : String) (fuel : Nat) (oid : String)
    (pkt : SnmpPacket) (v : SnmpPDU) (vs : List SnmpPDU)
    (hd : d.getNext oid = (some pkt, none)) (hv : pkt.Variables = v :: vs)
    (hc : containsSub v.Name root = false) :
    streamWalkAux d root (fuel+1) oid = ([Ev.req oid, Ev.closeChan], some none) := by
  rw [streamWalkAux, hd]
  dsimp only
  rw [hv]
  dsimp only
  rw [hc]
  rfl

/-- `StreamWalk` loop: in-range branch — push to the channel, continue
from the variable's name. -/
theorem streamWalkAux_in (d : Dispatch) (root : String) (fuel : Nat) (oid : String)
    (pkt : SnmpPacket) (v : SnmpPDU) (vs : List SnmpPDU)
    (hd : d.getNext oid = (some pkt, none)) (hv : pkt.Variables = v :: vs)
    (hc : containsSub v.Name root = true) :
    streamWalkAux d root (fuel+1) oid =
      (Ev.req oid :: Ev.emit v :: (streamWalkAux d root fuel v.Name).1,
       (streamWalkAux d root fuel v.Name).2) := by
  rw [streamWalkAux, hd]
  dsimp only
  rw [hv]
  dsimp only
  rw [hc]
  rcases hrec : streamWalkAux d root fuel v.Name with ⟨tr, r⟩
  rfl

/-- Every variable `StreamWalk` pushes into the channel passes the
containment test against the original root. -/
theorem streamWalkAux_emits (d : Dispatch) (root : String) :
    ∀ (fuel : Nat) (cursor : String) (v : SnmpPDU),
      Ev.emit v ∈ (streamWalkAux d root fuel cursor).1 →
      containsSub v.Name root = true := by
  intro fuel
  induction fuel with
  | zero => intro cursor v h; simp [streamWalkAux] at h
  | succ n ih =>
    intro cursor v h
    rcases hd : d.getNext cursor with ⟨pkt?, err?⟩
    rcases err? with _ | e'
    · rcases pkt? with _ | pkt
      · rw [streamWalkAux_nilnil d root n cursor hd] at h
        simp at h
      · rcases hvars : pkt.Variables with _ | ⟨w, vs⟩
        · rw [streamWalkAux_empty d root n cursor pkt hd hvars] at h
          simp at h
        · rcases hcond : containsSub w.Name root with _ | _
          · rw [streamWalkAux_out d root n cursor pkt w vs hd hvars hcond] at h
            simp at h
          · rw [streamWalkAux_in d root n cursor pkt w vs hd hvars hcond] at h
            rcases List.mem_cons.mp h with h | h
            · simp at h
            · rcases List.mem_cons.mp h with h | h
              · injection h with h'
                rw [h']
                exact hcond
              · exact ih w.Name v h
    · rw [streamWalkAux_err d root n cursor pkt? e' hd] at h
      simp at h

/-- Claim C1 (amended): the sequential walk's in-range test is
`strings.Index(name, root) > -1` — substring containment, not a prefix
test.  After a successful `GetNext` returning first variable `v`, the
walk terminates normally (emitting nothing further) exactly when
`v.Name` does not CONTAIN the root OID as a substring; accordingly every
variable emitted by `Walk` or pushed by `StreamWalk` contains the root
OID as a substring of its `Name` (but not necessarily as a prefix — see
the counterexample). -/
theorem walk_boundary_by_containment :
    (∀ (d : Dispatch) (root : String) (fuel : Nat) (cursor : String)
        (res : List SnmpPDU) (e : Option SnmpError),
        (walkAux d root fuel cursor).2 = some (res, e) →
        ∀ v ∈ res, containsSub v.Name root = true) ∧
    (∀ (d : Dispatch) (root : String) (fuel : Nat) (cursor : String)
        (pkt : SnmpPacket) (v : SnmpPDU) (vs : List SnmpPDU),
        d.getNext cursor = (some pkt, none) → pkt.Variables = v :: vs →
        ((walkAux d root (fuel+1) cursor).2 = some ([], none) ↔
          containsSub v.Name root = false)) ∧
    (∀ (d : Dispatch) (root : String) (fuel : Nat) (cursor : String) (v : SnmpPDU),
        Ev.emit v ∈ (streamWalkAux d root fuel cursor).1 →
        containsSub v.Name root = true) :=
  ⟨fun d root fuel cursor res e h => walkAux_emits d root fuel cursor res e h,
   fun d root fuel cursor pkt v vs hget hvars =>
     walkAux_step_boundary d root fuel cursor pkt v vs hget hvars,
   fun d root fuel cursor v h => streamWalkAux_emits d root fuel cursor v h⟩

/-- Witness for the amended C1 theorem: a concrete agent whose first
answer `"9.1.3"` contains `"1.3"` only as an interior substring. -/
theorem walk_boundary_by_containment_wit :
    ((walkAux (agentDispatch [v913]) "1.3" (0+1) "1.3").2 = some ([], none) ↔
      containsSub v913.Name "1.3" = false) :=
  walk_boundary_by_containment.2.1 (agentDispatch [v913]) "1.3" 0 "1.3" pkt913 v913 []
    (by decide) (by decide)

/-- Claim C1 counterexample: against an agent that answers `GetNext`
with name `"9.1.3"`, the walk rooted at `"1.3"` EMITS that variable and
continues (because `"9.1.3"` contains `"1.3"` at offset 2), even though
`"9.1.3"` does not begin with `"1.3"` — refuting "every variable emitted
by the sequential walk has the root OID as a prefix of its Name" and
"the walk terminates exactly when v.Name does not begin with r". -/
theorem walk_emits_without_pfx :
    (Walk (agentDispatch [v913, v88]) "1.3" 5).2 = some ([v913], none) ∧
    hasPfx v913.Name "1.3" = false := by
  exact ⟨by decide, by decide⟩

/-- `_bulkWalk`: dispatch error branch — return `(nil, err)`. -/
theorem bulkWalkAux_err (d : Dispatch) (m : Nat) (root : String) (fuel : Nat)
    (oid : String) (pkt? : Option SnmpPacket) (e : SnmpError)
    (hd : d.getBulk 0 m oid = (pkt?, some e)) :
    bulkWalkAux d m root (fuel+1) oid = ([Ev.req oid], some ([], some e)) := by
  rw [bulkWalkAux, hd]

/-- `_bulkWalk`: successful dispatch — run the batch loop on the
response's variables. -/
theorem bulkWalkAux_ok (d : Dispatch) (m : Nat) (root : String) (fuel : Nat)
    (oid : String) (pkt : SnmpPacket) (hd : d.getBulk 0 m oid = (some pkt, none)) :
    bulkWalkAux d m root (fuel+1) oid =
      (Ev.req oid :: (bulkBatch (bulkWalkAux d m root fuel) root pkt.Variables).1,
       (bulkBatch (bulkWalkAux d m root fuel) root pkt.Variables).2) := by
  rw [bulkWalkAux, hd]
  rfl

/-- `StreamBulkWalk`: dispatch error on the first batch — close, return
the error. -/
theorem streamBulkWalk_err (d : Dispatch) (m : Nat) (oid : String) (fuel : Nat)
    (pkt? : Option SnmpPacket) (e : SnmpError)
    (hd : d.getBulk 0 m oid = (pkt?, some e)) :
    StreamBulkWalk d m oid fuel = ([Ev.req oid, Ev.closeChan], some (some e)) := by
  unfold StreamBulkWalk
  rw [hd]

/-- `StreamBulkWalk`: successful first batch — run the streaming batch
loop. -/
theorem streamBulkWalk_ok (d : Dispatch) (m : Nat) (oid : String) (fuel : Nat)
    (pkt : SnmpPacket) (hd : d.getBulk 0 m oid = (some pkt, none)) :
    StreamBulkWalk d m oid fuel =
      (Ev.req oid :: (streamBulkBatch (bulkWalkAux d m oid fuel) oid pkt.Variables).1,
       (streamBulkBatch (bulkWalkAux d m oid fuel) oid pkt.Variables).2) := by
  unfold StreamBulkWalk
  rw [hd]
  rfl

/-- A batch whose first sentinel-valued variable sits after prefix `l`
stops `_bulkWalk`'s loop there: only `l`'s in-range variables are kept,
no error is produced, and the trace is empty (so no further request is
issued from this point on). -/
theorem bulkBatch_sentinel
    (rc : String → List Ev × Option (List SnmpPDU × Option SnmpError)) (root : String) :
    ∀ (l : List SnmpPDU) (v : SnmpPDU) (rest : List SnmpPDU),
      v.Value = endOfMibValue → (∀ w ∈ l, w.Value ≠ endOfMibValue) →
      bulkBatch rc root (l ++ v :: rest)
        = ([], some (l.filter (fun w => hasPfx w.Name root), none)) := by
  intro l
  induction l with
  | nil =>
    intro v rest hv _
    rw [List.nil_append, bulkBatch, if_pos hv]
    rfl
  | cons w l ih =>
    intro v rest hv hl
    have hw : w.Value ≠ endOfMibValue := hl w (by simp)
    have hl' : ∀ u ∈ l, u.Value ≠ endOfMibValue := fun u hu => hl u (by simp [hu])
    have ihres := ih v rest hv hl'
    rw [List.cons_append, bulkBatch, if_neg hw]
    by_cases hp : hasPfx w.Name root = true
    · rw [if_pos hp, if_neg (c := (l ++ v :: rest).isEmpty = true) (by simp), ihres]
      have hf : List.filter (fun u => hasPfx u.Name root) (w :: l)
          = w :: List.filter (fun u => hasPfx u.Name root) l := by
        simp [List.filter_cons, hp]
      rw [hf]
    · rw [Bool.not_eq_true] at hp
      have hf : List.filter (fun u => hasPfx u.Name root) (w :: l)
          = List.filter (fun u => hasPfx u.Name root) l := by
        simp [List.filter_cons, hp]
      rw [if_neg (by simp [hp]), ihres, hf]

/-- The blocking batch loop writes nothing to any channel: its trace only
ever contains the recursion's events. -/
theorem bulkBatch_close_free
    (rc : String → List Ev × Option (List SnmpPDU × Option SnmpError)) (root : String)
    (hrc : ∀ n, Ev.closeChan ∉ (rc n).1) :
    ∀ vars, Ev.closeChan ∉ (bulkBatch rc root vars).1 := by
  intro vars
  induction vars with
  | nil => simp [bulkBatch]
  | cons v vs ih =>
    rw [bulkBatch]
    by_cases hv : v.Value = endOfMibValue
    · rw [if_pos hv]
      simp
    · rw [if_neg hv]
      by_cases hp : hasPfx v.Name root = true
      · rw [if_pos hp]
        rcases vs with _ | ⟨a, as⟩
        · rw [if_pos (c := List.isEmpty [] = true) rfl]
          have hmem := hrc v.Name
          rcases hr : rc v.Name with ⟨tr0, r0⟩
          rw [hr] at hmem
          rcases r0 with _ | ⟨sub, e0⟩
          · exact hmem
          · rcases e0 with _ | e0 <;> exact hmem
        · rw [if_neg (c := (a :: as).isEmpty = true) (by simp)]
          rcases hbb : bulkBatch rc root (a :: as) with ⟨tr1, r1⟩
          rw [hbb] at ih
          rcases r1 with _ | ⟨rest, e1⟩
          · exact ih
          · exact ih
      · rw [Bool.not_eq_true] at hp
        rw [if_neg (by simp [hp])]
        exact ih

/-- In-range head survives the batch filter. -/
theorem filter_cons_pos (root : String) (w : SnmpPDU) (l : List SnmpPDU)
    (hp : hasPfx w.Name root = true) :
    List.filter (fun u => hasPfx u.Name root) (w :: l)
      = w :: List.filter (fun u => hasPfx u.Name root) l := by
  simp [List.filter_cons, hp]

/-- Out-of-range head is dropped by the batch filter. -/
theorem filter_cons_neg (root : String) (w : SnmpPDU) (l : List SnmpPDU)
    (hp : hasPfx w.Name root = false) :
    List.filter (fun u => hasPfx u.Name root) (w :: l)
      = List.filter (fun u => hasPfx u.Name root) l := by
  simp [List.filter_cons, hp]

/-- The batch filter keeps an all-in-range list intact. -/
theorem filter_eq_self_of_allin (root : String) :
    ∀ l : List SnmpPDU, (∀ w ∈ l, hasPfx w.Name root = true) →
      List.filter (fun u => hasPfx u.Name root) l = l := by
  intro l
  induction l with
  | nil => intro _; rfl
  | cons w l ih =>
    intro h
    rw [filter_cons_pos root w l (h w (by simp)), ih (fun u hu => h u (by simp [hu]))]

/-- A batch whose last variable is in range and not the sentinel (and
with no sentinel before it) recurses from that variable's name: the
batch's trace is exactly the recursion's trace, and the recursion's
results are appended after the batch's filtered emissions — except on a
recursion error, where the sub-results are dropped and the error is
passed up with the batch's own emissions. -/
theorem bulkBatch_lastIn
    (rc : String → List Ev × Option (List SnmpPDU × Option SnmpError)) (root : String) :
    ∀ (l : List SnmpPDU) (v : SnmpPDU),
      (∀ w ∈ l, w.Value ≠ endOfMibValue) → v.Value ≠ endOfMibValue →
      hasPfx v.Name root = true →
      bulkBatch rc root (l ++ [v]) =
        ((rc v.Name).1,
         match (rc v.Name).2 with
         | none => none
         | some (_, some e) => some (l.filter (fun u => hasPfx u.Name root) ++ [v], some e)
         | some (sub, none) =>
            some (l.filter (fun u => hasPfx u.Name root) ++ v :: sub, none)) := by
  intro l
  induction l with
  | nil =>
    intro v _ hv hp
    rw [List.nil_append, bulkBatch, if_neg hv, if_pos hp,
      if_pos (c := List.isEmpty [] = true) rfl]
    rcases rc v.Name with ⟨tr, r⟩
    rcases r with _ | ⟨sub, e⟩
    · rfl
    · rcases e with _ | e <;> rfl
  | cons w l ih =>
    intro v hl hv hp
    have hw : w.Value ≠ endOfMibValue := hl w (by simp)
    have hl' : ∀ u ∈ l, u.Value ≠ endOfMibValue := fun u hu => hl u (by simp [hu])
    have ihres := ih v hl' hv hp
    rw [List.cons_append, bulkBatch, if_neg hw]
    by_cases hpw : hasPfx w.Name root = true
    · rw [if_pos hpw, if_neg (c := (l ++ [v]).isEmpty = true) (by simp), ihres,
        filter_cons_pos root w l hpw]
      rcases (rc v.Name).2 with _ | ⟨sub, e⟩
      · rfl
      · rcases e with _ | e <;> rfl
    · rw [Bool.not_eq_true] at hpw
      rw [if_neg (by simp [hpw]), ihres, filter_cons_neg root w l hpw]

/-- A batch whose last variable is out of range (no sentinel among the
earlier ones) does not recurse: no trace, the filtered batch and no
error. -/
theorem bulkBatch_lastOut
    (rc : String → List Ev × Option (List SnmpPDU × Option SnmpError)) (root : String) :
    ∀ (l : List SnmpPDU) (v : SnmpPDU),
      (∀ w ∈ l, w.Value ≠ endOfMibValue) → hasPfx v.Name root = false →
      bulkBatch rc root (l ++ [v])
        = ([], some (l.filter (fun u => hasPfx u.Name root), none)) := by
  intro l
  induction l with
  | nil =>
    intro v _ hp
    by_cases hv : v.Value = endOfMibValue
    · rw [List.nil_append, bulkBatch, if_pos hv]
      rfl
    · rw [List.nil_append, bulkBatch, if_neg hv, if_neg (by simp [hp])]
      rfl
  | cons w l ih =>
    intro v hl hp
    have hw : w.Value ≠ endOfMibValue := hl w (by simp)
    have hl' : ∀ u ∈ l, u.Value ≠ endOfMibValue := fun u hu => hl u (by simp [hu])
    have ihres := ih v hl' hp
    rw [List.cons_append, bulkBatch, if_neg hw]
    by_cases hpw : hasPfx w.Name root = true
    · rw [if_pos hpw, if_neg (c := (l ++ [v]).isEmpty = true) (by simp), ihres,
        filter_cons_pos root w l hpw]
    · rw [Bool.not_eq_true] at hpw
      rw [if_neg (by simp [hpw]), ihres, filter_cons_neg root w l hpw]

/-- `_bulkWalk`: a `(nil, nil)` dispatch result is modelled as the empty
batch (in Go this shape, only producible through the recover slip, would
crash on the nil dereference). -/
theorem bulkWalkAux_nilnil (d : Dispatch) (m : Nat) (root : String) (fuel : Nat)
    (oid : String) (hd : d.getBulk 0 m oid = (none, none)) :
    bulkWalkAux d m root (fuel+1) oid = ([Ev.req oid], some ([], none)) := by
  rw [bulkWalkAux, hd]
  rfl

/-- `StreamBulkWalk` batch loop: in-range last variable — emit it, run
the blocking recursion, forward its results or error, close. -/
theorem streamBulkBatch_lastIn
    (rc : String → List Ev × Option (List SnmpPDU × Option SnmpError)) (root : String)
    (v : SnmpPDU) (hv : v.Value ≠ endOfMibValue) (hp : hasPfx v.Name root = true) :
    streamBulkBatch rc root [v]
      = (match rc v.Name with
         | (tr, none) => (Ev.emit v :: tr, none)
         | (tr, some (_, some e)) => (Ev.emit v :: tr ++ [Ev.closeChan], some (some e))
         | (tr, some (sub, none)) =>
            (Ev.emit v :: tr ++ sub.map Ev.emit ++ [Ev.closeChan], some none)) := by
  rw [streamBulkBatch, if_neg hv, if_pos hp, if_pos (c := List.isEmpty [] = true) rfl]

/-- Streaming analogue of `bulkBatch_sentinel`: the in-range variables
before the first sentinel are pushed, then the channel is closed; no
request is issued and no error returned. -/
theorem streamBulkBatch_sentinel
    (rc : String → List Ev × Option (List SnmpPDU × Option SnmpError)) (root : String) :
    ∀ (l : List SnmpPDU) (v : SnmpPDU) (rest : List SnmpPDU),
      v.Value = endOfMibValue → (∀ w ∈ l, w.Value ≠ endOfMibValue) →
      streamBulkBatch rc root (l ++ v :: rest)
        = ((l.filter (fun u => hasPfx u.Name root)).map Ev.emit ++ [Ev.closeChan],
           some none) := by
  intro l
  induction l with
  | nil =>
    intro v rest hv _
    rw [List.nil_append, streamBulkBatch, if_pos hv]
    rfl
  | cons w l ih =>
    intro v rest hv hl
    have hw : w.Value ≠ endOfMibValue := hl w (by simp)
    have hl' : ∀ u ∈ l, u.Value ≠ endOfMibValue := fun u hu => hl u (by simp [hu])
    have ihres := ih v rest hv hl'
    rw [List.cons_append, streamBulkBatch, if_neg hw]
    by_cases hpw : hasPfx w.Name root = true
    · rw [if_pos hpw, if_neg (c := (l ++ v :: rest).isEmpty = true) (by simp), ihres,
        filter_cons_pos root w l hpw]
      rfl
    · rw [Bool.not_eq_true] at hpw
      rw [if_neg (by simp [hpw]), ihres, filter_cons_neg root w l hpw]


/-- `_bulkWalk` never touches the channel, at any recursion depth. -/
theorem bulkWalkAux_close_free (d : Dispatch) (m : Nat) (root : String) :
    ∀ (fuel : Nat) (cursor : String),
      Ev.closeChan ∉ (bulkWalkAux d m root fuel cursor).1 := by
  intro fuel
  induction fuel with
  | zero => intro cursor; simp [bulkWalkAux]
  | succ n ih =>
    intro cursor
    rcases hd : d.getBulk 0 m cursor with ⟨pkt?, err?⟩
    rcases err? with _ | e
    · rcases pkt? with _ | pkt
      · rw [bulkWalkAux_nilnil d m root n cursor hd]
        simp
      · rw [bulkWalkAux_ok d m root n cursor pkt hd]
        intro hmem
        rcases List.mem_cons.mp hmem with h' | h'
        · cases h'
        · exact bulkBatch_close_free (bulkWalkAux d m root n) root ih pkt.Variables h'
    · rw [bulkWalkAux_err d m root n cursor pkt? e hd]
      simp

/-- Terminated `StreamWalk` loops close the channel exactly once, as the
very last event. -/
theorem streamWalkAux_closes (d : Dispatch) (root : String) :
    ∀ (fuel : Nat) (cursor : String) (tr : List Ev) (r : Option SnmpError),
      streamWalkAux d root fuel cursor = (tr, some r) →
      ∃ tr', tr = tr' ++ [Ev.closeChan] ∧ Ev.closeChan ∉ tr' := by
  intro fuel
  induction fuel with
  | zero =>
    intro cursor tr r h
    rw [streamWalkAux] at h
    simp only [Prod.mk.injEq] at h
    exact Option.noConfusion h.2
  | succ n ih =>
    intro cursor tr r h
    rcases hd : d.getNext cursor with ⟨pkt?, err?⟩
    rcases err? with _ | e
    · rcases pkt? with _ | pkt
      · rw [streamWalkAux_nilnil d root n cursor hd] at h
        simp only [Prod.mk.injEq] at h
        exact ⟨[Ev.req cursor], by rw [← h.1]; rfl, by simp⟩
      · rcases hvars : pkt.Variables with _ | ⟨v, vs⟩
        · rw [streamWalkAux_empty d root n cursor pkt hd hvars] at h
          simp only [Prod.mk.injEq] at h
          exact ⟨[Ev.req cursor], by rw [← h.1]; rfl, by simp⟩
        · by_cases hc : containsSub v.Name root = true
          · rw [streamWalkAux_in d root n cursor pkt v vs hd hvars hc] at h
            rcases hs : streamWalkAux d root n v.Name with ⟨tr0, r0⟩
            rw [hs] at h
            simp only [Prod.mk.injEq] at h
            obtain ⟨h1, h2⟩ := h
            rcases r0 with _ | r0v
            · exact Option.noConfusion h2
            · obtain ⟨tr', htr, hnm⟩ := ih v.Name tr0 r0v hs
              refine ⟨Ev.req cursor :: Ev.emit v :: tr', ?_, ?_⟩
              · rw [← h1, htr]
                rfl
              · intro hmem
                rcases List.mem_cons.mp hmem with h' | h'
                · cases h'
                · rcases List.mem_cons.mp h' with h' | h'
                  · cases h'
                  · exact hnm h'
          · rw [Bool.not_eq_true] at hc
            rw [streamWalkAux_out d root n cursor pkt v vs hd hvars hc] at h
            simp only [Prod.mk.injEq] at h
            exact ⟨[Ev.req cursor], by rw [← h.1]; rfl, by simp⟩
    · rw [streamWalkAux_err d root n cursor pkt? e hd] at h
      simp only [Prod.mk.injEq] at h
      exact ⟨[Ev.req cursor], by rw [← h.1]; rfl, by simp⟩

/-- Terminated `StreamBulkWalk` batch loops close the channel exactly
once, as the very last event (the blocking recursion stays off the
channel). -/
theorem streamBulkBatch_closes
    (rc : String → List Ev × Option (List SnmpPDU × Option SnmpError)) (root : String)
    (hrc : ∀ n, Ev.closeChan ∉ (rc n).1) :
    ∀ (vars : List SnmpPDU) (tr : List Ev) (r : Option SnmpError),
      streamBulkBatch rc root vars = (tr, some r) →
      ∃ tr', tr = tr' ++ [Ev.closeChan] ∧ Ev.closeChan ∉ tr' := by
  intro vars
  induction vars with
  | nil =>
    intro tr r h
    rw [streamBulkBatch] at h
    simp only [Prod.mk.injEq] at h
    exact ⟨[], by rw [← h.1]; rfl, by simp⟩
  | cons v vs ih =>
    intro tr r h
    by_cases hv : v.Value = endOfMibValue
    · rw [streamBulkBatch, if_pos hv] at h
      simp only [Prod.mk.injEq] at h
      exact ⟨[], by rw [← h.1]; rfl, by simp⟩
    · by_cases hp : hasPfx v.Name root = true
      · rcases vs with _ | ⟨a, as⟩
        · rw [streamBulkBatch_lastIn rc root v hv hp] at h
          have hnm0 := hrc v.Name
          rcases hr : rc v.Name with ⟨tr0, r0⟩
          rw [hr] at h hnm0
          rcases r0 with _ | ⟨sub, e0⟩
          · have h' : (Ev.emit v :: tr0, (none : Option (Option SnmpError)))
                = (tr, some r) := h
            simp only [Prod.mk.injEq] at h'
            exact Option.noConfusion h'.2
          · rcases e0 with _ | e0
            · have h' : (Ev.emit v :: tr0 ++ sub.map Ev.emit ++ [Ev.closeChan],
                  some (none : Option SnmpError)) = (tr, some r) := h
              simp only [Prod.mk.injEq] at h'
              refine ⟨Ev.emit v :: (tr0 ++ sub.map Ev.emit), ?_, ?_⟩
              · rw [← h'.1]
                simp [List.append_assoc]
              · intro hmem
                rcases List.mem_cons.mp hmem with h'' | h''
                · cases h''
                · rcases List.mem_append.mp h'' with h'' | h''
                  · exact hnm0 h''
                  · rcases List.mem_map.mp h'' with ⟨u, _, he⟩
                    cases he
            · have h' : (Ev.emit v :: tr0 ++ [Ev.closeChan], some (some e0))
                = (tr, some r) := h
              simp only [Prod.mk.injEq] at h'
              refine ⟨Ev.emit v :: tr0, ?_, ?_⟩
              · rw [← h'.1]
              · intro hmem
                rcases List.mem_cons.mp hmem with h'' | h''
                · cases h''
                · exact hnm0 h''
        · rw [streamBulkBatch, if_neg hv, if_pos hp,
            if_neg (c := (a :: as).isEmpty = true) (by simp)] at h
          rcases hbb : streamBulkBatch rc root (a :: as) with ⟨tr1, r1⟩
          rw [hbb] at h
          have h' : (Ev.emit v :: tr1, r1) = (tr, some r) := h
          simp only [Prod.mk.injEq] at h'
          obtain ⟨h1, h2⟩ := h'
          rcases r1 with _ | r1v
          · exact Option.noConfusion h2
          · obtain ⟨tr', htr, hnm⟩ := ih tr1 r1v (by rw [hbb, h2])
            refine ⟨Ev.emit v :: tr', ?_, ?_⟩
            · rw [← h1, htr]
              rfl
            · intro hmem
              rcases List.mem_cons.mp hmem with h'' | h''
              · cases h''
              · exact hnm h''
      · rw [Bool.not_eq_true] at hp
        rw [streamBulkBatch, if_neg hv, if_neg (by simp [hp])] at h
        exact ih tr r h

/-- A trace of the form `tr' ++ [close]` with no close in `tr'` contains
exactly one close event and ends with it. -/
theorem closes_once_shape (tr tr' : List Ev) (h : tr = tr' ++ [Ev.closeChan])
    (hn : Ev.closeChan ∉ tr') :
    tr.count Ev.closeChan = 1 ∧ tr.getLast? = some Ev.closeChan := by
  subst h
  constructor
  · rw [List.count_append, List.count_eq_zero.mpr hn]
    simp
  · rw [List.getLast?_concat]

/-- The simulated agent never produces the `(nil, nil)` result shape. -/
theorem agentDispatch_no_nilnil (mib : List SnmpPDU) (nr m : Nat) (o : String) :
    (agentDispatch mib).getBulk nr m o ≠ (none, none) := by
  unfold agentDispatch
  dsimp only
  rcases (agentAfter o mib).take m with _ | ⟨p, ps⟩
  · simp
  · simp

/-- Claim C3: on every terminated run — normal boundary, sentinel, empty
response, empty-OID rejection, or dispatch error at any depth —
`StreamWalk` and `StreamBulkWalk` close the result channel exactly once,
as the last event of their trace (hence nothing is written after the
close, and no path returns without closing).  For `StreamBulkWalk` the
dispatch is assumed never to return the `(nil, nil)` shape, which in Go
would crash on a nil dereference instead of terminating. -/
theorem stream_close_exactly_once :
    ∀ (d : Dispatch) (m fuel : Nat) (oid : String) (tr : List Ev) (r : Option SnmpError),
      (StreamWalk d oid fuel = (tr, some r) →
        tr.count Ev.closeChan = 1 ∧ tr.getLast? = some Ev.closeChan) ∧
      ((∀ o, d.getBulk 0 m o ≠ (none, none)) →
        StreamBulkWalk d m oid fuel = (tr, some r) →
        tr.count Ev.closeChan = 1 ∧ tr.getLast? = some Ev.closeChan) := by
  intro d m fuel oid tr r
  constructor
  · intro h
    by_cases ho : oid = ""
    · rw [StreamWalk, if_pos ho] at h
      simp only [Prod.mk.injEq] at h
      rw [← h.1]
      exact closes_once_shape [Ev.closeChan] [] rfl (by simp)
    · rw [StreamWalk, if_neg ho] at h
      obtain ⟨tr', htr, hnm⟩ := streamWalkAux_closes d oid fuel oid tr r h
      exact closes_once_shape tr tr' htr hnm
  · intro hnn h
    rcases hd : d.getBulk 0 m oid with ⟨pkt?, err?⟩
    rcases err? with _ | e
    · rcases pkt? with _ | pkt
      · exact absurd hd (hnn oid)
      · rw [streamBulkWalk_ok d m oid fuel pkt hd] at h
        rcases hsb : streamBulkBatch (bulkWalkAux d m oid fuel) oid pkt.Variables
          with ⟨tr1, r1⟩
        rw [hsb] at h
        simp only [Prod.mk.injEq] at h
        obtain ⟨h1, h2⟩ := h
        rcases r1 with _ | r1v
        · exact Option.noConfusion h2
        · obtain ⟨tr', htr, hnm⟩ := streamBulkBatch_closes (bulkWalkAux d m oid fuel) oid
            (bulkWalkAux_close_free d m oid fuel) pkt.Variables tr1 r1v hsb
          refine closes_once_shape tr (Ev.req oid :: tr') ?_ ?_
          · rw [← h1, htr]
            rfl
          · intro hmem
            rcases List.mem_cons.mp hmem with h' | h'
            · cases h'
            · exact hnm h'
    · rw [streamBulkWalk_err d m oid fuel pkt? e hd] at h
      simp only [Prod.mk.injEq] at h
      rw [← h.1]
      exact closes_once_shape [Ev.req oid, Ev.closeChan] [Ev.req oid] rfl (by simp)

/-- Witness for C3: a concrete empty agent; `StreamWalk` on `"1.3"` and
`StreamBulkWalk` on the empty OID both close exactly once. -/
theorem stream_close_exactly_once_wit :
    ([Ev.req "1.3", Ev.closeChan].count Ev.closeChan = 1 ∧
      [Ev.req "1.3", Ev.closeChan].getLast? = some Ev.closeChan) ∧
    ([Ev.req "", Ev.closeChan].count Ev.closeChan = 1 ∧
      [Ev.req "", Ev.closeChan].getLast? = some Ev.closeChan) :=
  ⟨(stream_close_exactly_once (agentDispatch []) 1 2 "1.3" [Ev.req "1.3", Ev.closeChan]
      (some SnmpError.noResponse)).1 (by decide),
   (stream_close_exactly_once (agentDispatch []) 1 2 "" [Ev.req "", Ev.closeChan]
      (some SnmpError.noResponse)).2
      (fun o => agentDispatch_no_nilnil [] 0 1 o) (by decide)⟩

/-- Running the sequential walk loop against a simulated agent: from a
cursor that resumes at `rest ++ t :: post` where every entry of `rest`
passes the containment test and `t` fails it, the loop emits exactly
`rest` and terminates normally. -/
theorem walkAux_run (root : String) (mib : List SnmpPDU) (t : SnmpPDU) (post : List SnmpPDU)
    (hnodup : (mib.map SnmpPDU.Name).Nodup)
    (ht : containsSub t.Name root = false) :
    ∀ (rest pre : List SnmpPDU) (cursor : String) (fuel : Nat),
      mib = pre ++ (rest ++ t :: post) →
      agentAfter cursor mib = rest ++ t :: post →
      (∀ v ∈ rest, containsSub v.Name root = true) →
      rest.length < fuel →
      (walkAux (agentDispatch mib) root fuel cursor).2 = some (rest, none) := by
  intro rest
  induction rest with
  | nil =>
    intro pre cursor fuel _ hcur _ hlt
    rcases fuel with _ | n
    · simp at hlt
    · rw [List.nil_append] at hcur
      have hget : (agentDispatch mib).getNext cursor
          = (some { SnmpPacket.new with Variables := [t] }, none) := by
        unfold agentDispatch
        dsimp only
        rw [hcur]
      rw [walkAux_out (agentDispatch mib) root n cursor _ t [] hget rfl ht]
  | cons v rest ih =>
    intro pre cursor fuel hsplit hcur hrest hlt
    rcases fuel with _ | n
    · simp at hlt
    · rw [List.cons_append] at hcur
      have hsplit2 : mib = pre ++ v :: (rest ++ t :: post) := by
        rw [hsplit, List.cons_append]
      have hget : (agentDispatch mib).getNext cursor
          = (some { SnmpPacket.new with Variables := [v] }, none) := by
        unfold agentDispatch
        dsimp only
        rw [hcur]
      have hcv : containsSub v.Name root = true := hrest v (by simp)
      rw [walkAux_in (agentDispatch mib) root n cursor _ v [] hget rfl hcv]
      have hnd := hnodup
      rw [hsplit2] at hnd
      have hcur' : agentAfter v.Name mib = rest ++ t :: post := by
        rw [hsplit2]
        exact agentAfter_found v pre (rest ++ t :: post) hnd
      have hsplit' : mib = (pre ++ [v]) ++ (rest ++ t :: post) := by
        rw [hsplit2]
        simp
      have ihres := ih (pre ++ [v]) v.Name n hsplit' hcur'
        (fun w hw => hrest w (by simp [hw])) (by simpa using hlt)
      show Option.map (fun p => (v :: p.1, p.2))
          (walkAux (agentDispatch mib) root n v.Name).2 = some (v :: rest, none)
      rw [ihres]
      rfl

/-- Running `_bulkWalk` against a simulated agent: from a cursor that
resumes at `rest ++ tail`, where every entry of `rest` is in range and
non-sentinel and any batch spilling into `tail` stops the loop with just
its in-range prefix, the walk returns exactly `rest` with no error. -/
theorem bulkWalkAux_run (root : String) (m : Nat) (hm : 1 ≤ m)
    (mib tail : List SnmpPDU)
    (hnodup : (mib.map SnmpPDU.Name).Nodup)
    (htne : tail ≠ [])
    (htail : ∀ (rc : String → List Ev × Option (List SnmpPDU × Option SnmpError))
        (l : List SnmpPDU) (j : Nat), 1 ≤ j →
        (∀ w ∈ l, hasPfx w.Name root = true ∧ w.Value ≠ endOfMibValue) →
        bulkBatch rc root (l ++ tail.take j) = ([], some (l, none))) :
    ∀ (fuel : Nat) (rest pre : List SnmpPDU) (cursor : String),
      mib = pre ++ (rest ++ tail) →
      agentAfter cursor mib = rest ++ tail →
      (∀ v ∈ rest, hasPfx v.Name root = true ∧ v.Value ≠ endOfMibValue) →
      rest.length < fuel →
      (bulkWalkAux (agentDispatch mib) m root fuel cursor).2 = some (rest, none) := by
  intro fuel
  induction fuel with
  | zero => intro rest pre cursor _ _ _ hlt; simp at hlt
  | succ n ih =>
    intro rest pre cursor hsplit hcur hrest hlt
    have hne : rest ++ tail ≠ [] := fun hc => htne (List.append_eq_nil.mp hc).2
    obtain ⟨p, ps, hps⟩ : ∃ p ps, (rest ++ tail).take m = p :: ps := by
      rcases hrt : rest ++ tail with _ | ⟨a, as⟩
      · exact absurd hrt hne
      · rcases m with _ | m'
        · exact absurd hm (by simp)
        · exact ⟨a, as.take m', by rw [List.take_succ_cons]⟩
    have hget : (agentDispatch mib).getBulk 0 m cursor
        = (some { SnmpPacket.new with Variables := p :: ps }, none) := by
      unfold agentDispatch
      dsimp only
      rw [hcur, hps]
    rw [bulkWalkAux_ok (agentDispatch mib) m root n cursor _ hget]
    show (bulkBatch (bulkWalkAux (agentDispatch mib) m root n) root (p :: ps)).2
      = some (rest, none)
    rw [← hps]
    by_cases hcase : m ≤ rest.length
    · have htake : (rest ++ tail).take m = rest.take m := by
        rw [List.take_append_eq_append_take, Nat.sub_eq_zero_of_le hcase, List.take_zero,
          List.append_nil]
      rw [htake]
      have htm_ne : rest.take m ≠ [] := by
        rcases rest with _ | ⟨a, as⟩
        · exfalso
          have h0 : (1 : Nat) ≤ 0 := le_trans hm (by simpa using hcase)
          omega
        · rcases m with _ | m'
          · exact absurd hm (by simp)
          · simp
      obtain ⟨l', vlast, hdecomp⟩ : ∃ l' vlast, rest.take m = l' ++ [vlast] :=
        ⟨(rest.take m).dropLast, (rest.take m).getLast htm_ne,
          (List.dropLast_append_getLast htm_ne).symm⟩
      have hsubm : ∀ w ∈ rest.take m,
          hasPfx w.Name root = true ∧ w.Value ≠ endOfMibValue :=
        fun w hw => hrest w (List.take_subset m rest hw)
      have hl' : ∀ w ∈ l', w.Value ≠ endOfMibValue := fun w hw =>
        (hsubm w (by rw [hdecomp]; exact List.mem_append_left _ hw)).2
      have hallin : ∀ w ∈ l', hasPfx w.Name root = true := fun w hw =>
        (hsubm w (by rw [hdecomp]; exact List.mem_append_left _ hw)).1
      have hvl : hasPfx vlast.Name root = true ∧ vlast.Value ≠ endOfMibValue :=
        hsubm vlast (by rw [hdecomp]; exact List.mem_append_right _ (by simp))
      rw [hdecomp, bulkBatch_lastIn (bulkWalkAux (agentDispatch mib) m root n) root l' vlast
        hl' hvl.2 hvl.1]
      have hsplit2 : mib = (pre ++ l') ++ vlast :: (rest.drop m ++ tail) := by
        rw [hsplit]
        conv_lhs => rw [← List.take_append_drop m rest, hdecomp]
        simp
      have hnd := hnodup
      rw [hsplit2] at hnd
      have hcur' : agentAfter vlast.Name mib = rest.drop m ++ tail := by
        rw [hsplit2]
        exact agentAfter_found vlast (pre ++ l') (rest.drop m ++ tail) hnd
      have hdl : (rest.drop m).length < n := by
        have h1 : rest.length ≤ n := Nat.lt_succ_iff.mp hlt
        have h2 : 1 ≤ rest.length := le_trans hm hcase
        rw [List.length_drop]
        omega
      have hsplit3 : mib = (pre ++ rest.take m) ++ (rest.drop m ++ tail) := by
        rw [hsplit2, hdecomp]
        simp
      have ihres := ih (rest.drop m) (pre ++ rest.take m) vlast.Name hsplit3 hcur'
        (fun w hw => hrest w (List.drop_subset m rest hw)) hdl
      show (match (bulkWalkAux (agentDispatch mib) m root n vlast.Name).2 with
            | none => none
            | some (_, some e) =>
                some (l'.filter (fun u => hasPfx u.Name root) ++ [vlast], some e)
            | some (sub, none) =>
                some (l'.filter (fun u => hasPfx u.Name root) ++ vlast :: sub, none))
          = some (rest, none)
      rw [ihres]
      show some (l'.filter (fun u => hasPfx u.Name root) ++ vlast :: rest.drop m,
          (none : Option SnmpError)) = some (rest, none)
      rw [filter_eq_self_of_allin root l' hallin]
      have hj : l' ++ vlast :: rest.drop m = rest := by
        rw [← List.singleton_append, ← List.append_assoc, ← hdecomp, List.take_append_drop]
      rw [hj]
    · push_neg at hcase
      have htake2 : (rest ++ tail).take m = rest ++ tail.take (m - rest.length) := by
        rw [List.take_append_eq_append_take, List.take_of_length_le (le_of_lt hcase)]
      rw [htake2]
      have h2 := htail (bulkWalkAux (agentDispatch mib) m root n) rest (m - rest.length)
        (by omega) hrest
      rw [h2]

/-- Claim C2 counterexample: an agent serving the `"1.3"` subtree in tree
order whose single entry carries the value `"endOfMib"`.  `Walk` never
inspects values and returns that entry; `BulkWalk` stops at the sentinel
value and returns the empty list — the two blocking walks' result lists
differ. -/
theorem walk_bulkWalk_differ_on_sentinel :
    (Walk (agentDispatch [sent131, succ24]) "1.3" 5).2 = some ([sent131], none) ∧
    (BulkWalk (agentDispatch [sent131, succ24]) 2 "1.3" 5).2 = some ([], none) ∧
    ([sent131] : List SnmpPDU) ≠ [] :=
  ⟨by decide, by decide, by decide⟩

/-- Claim C2 (amended): for a non-empty root, `maxRepetitions ≥ 1`, and a
simulated agent serving distinct-named subtree entries in tree order —
all names extending the root, no served value equal to the end-of-tree
sentinel — followed by a successor whose name does not even contain the
root, `Walk` and `BulkWalk` return identical ordered result lists, both
equal to the served subtree, with no error. -/
theorem walk_bulkWalk_agree (root : String) (m fuelW fuelB : Nat)
    (sub : List SnmpPDU) (t : SnmpPDU)
    (hroot : root ≠ "") (hm : 1 ≤ m)
    (hnodup : ((sub ++ [t]).map SnmpPDU.Name).Nodup)
    (hrootmem : root ∉ (sub ++ [t]).map SnmpPDU.Name)
    (hsub : ∀ v ∈ sub, hasPfx v.Name root = true ∧ v.Value ≠ endOfMibValue)
    (ht : containsSub t.Name root = false)
    (hfW : sub.length < fuelW) (hfB : sub.length < fuelB) :
    (Walk (agentDispatch (sub ++ [t])) root fuelW).2
      = (BulkWalk (agentDispatch (sub ++ [t])) m root fuelB).2 ∧
    (Walk (agentDispatch (sub ++ [t])) root fuelW).2 = some (sub, none) := by
  have hagent : agentAfter root (sub ++ [t]) = sub ++ [t] :=
    agentAfter_not_mem root (sub ++ [t]) hrootmem
  have hwalk : (walkAux (agentDispatch (sub ++ [t])) root fuelW root).2
      = some (sub, none) := by
    refine walkAux_run root (sub ++ [t]) t [] hnodup ht sub [] root fuelW (by simp)
      hagent ?_ hfW
    exact fun v hv => containsSub_of_hasPfx _ _ (hsub v hv).1
  have htpfx : hasPfx t.Name root = false := hasPfx_eq_false_of_not_contains _ _ ht
  have hbulk : (bulkWalkAux (agentDispatch (sub ++ [t])) m root fuelB root).2
      = some (sub, none) := by
    refine bulkWalkAux_run root m hm (sub ++ [t]) [t] hnodup (by simp) ?_ fuelB sub [] root
      (by simp) hagent hsub hfB
    intro rc l j hj hall
    have hTake : ([t] : List SnmpPDU).take j = [t] := by
      rcases j with _ | j'
      · omega
      · simp
    rw [hTake, bulkBatch_lastOut rc root l t (fun w hw => (hall w hw).2) htpfx,
      filter_eq_self_of_allin root l (fun w hw => (hall w hw).1)]
  constructor
  · rw [Walk, if_neg hroot, BulkWalk, if_neg hroot, hwalk, hbulk]
  · rw [Walk, if_neg hroot, hwalk]

/-- Witness for the amended C2 theorem at a concrete two-entry subtree
with batch size 2. -/
theorem walk_bulkWalk_agree_wit :
    (Walk (agentDispatch ([v132, v133] ++ [succ24])) "1.3" 3).2
      = (BulkWalk (agentDispatch ([v132, v133] ++ [succ24])) 2 "1.3" 3).2 ∧
    (Walk (agentDispatch ([v132, v133] ++ [succ24])) "1.3" 3).2
      = some ([v132, v133], none) :=
  walk_bulkWalk_agree "1.3" 2 3 3 [v132, v133] succ24 (by decide) (by decide)
    (by decide) (by decide) (by decide) (by decide) (by decide) (by decide)

/-- Claim C5: a batch containing the end-of-tree sentinel value at
position `k` terminates the bulk walk normally right there — the
in-range variables before `k` are kept (streamed ones are pushed before
the close), nothing at or after `k` is emitted, no further request is
issued (the batch trace is empty), and no error is returned; results of
earlier batches are retained (`BulkWalk` over a sentinel-terminated
simulated subtree returns exactly the in-range entries before the
sentinel). -/
theorem bulk_sentinel_stops :
    (∀ (rc : String → List Ev × Option (List SnmpPDU × Option SnmpError)) (root : String)
        (l : List SnmpPDU) (v : SnmpPDU) (rest : List SnmpPDU),
        v.Value = endOfMibValue → (∀ w ∈ l, w.Value ≠ endOfMibValue) →
        bulkBatch rc root (l ++ v :: rest)
          = ([], some (l.filter (fun u => hasPfx u.Name root), none))) ∧
    (∀ (rc : String → List Ev × Option (List SnmpPDU × Option SnmpError)) (root : String)
        (l : List SnmpPDU) (v : SnmpPDU) (rest : List SnmpPDU),
        v.Value = endOfMibValue → (∀ w ∈ l, w.Value ≠ endOfMibValue) →
        streamBulkBatch rc root (l ++ v :: rest)
          = ((l.filter (fun u => hasPfx u.Name root)).map Ev.emit ++ [Ev.closeChan],
             some none)) ∧
    (∀ (root : String) (m fuel : Nat) (sub post : List SnmpPDU) (sent : SnmpPDU),
        root ≠ "" → 1 ≤ m →
        ((sub ++ sent :: post).map SnmpPDU.Name).Nodup →
        root ∉ (sub ++ sent :: post).map SnmpPDU.Name →
        (∀ v ∈ sub, hasPfx v.Name root = true ∧ v.Value ≠ endOfMibValue) →
        sent.Value = endOfMibValue →
        sub.length < fuel →
        (BulkWalk (agentDispatch (sub ++ sent :: post)) m root fuel).2
          = some (sub, none)) := by
  refine ⟨fun rc root l v rest hv hl => bulkBatch_sentinel rc root l v rest hv hl,
    fun rc root l v rest hv hl => streamBulkBatch_sentinel rc root l v rest hv hl,
    ?_⟩
  intro root m fuel sub post sent hroot hm hnodup hrootmem hsub hsent hf
  have hagent : agentAfter root (sub ++ sent :: post) = sub ++ sent :: post :=
    agentAfter_not_mem root (sub ++ sent :: post) hrootmem
  rw [BulkWalk, if_neg hroot]
  refine bulkWalkAux_run root m hm (sub ++ sent :: post) (sent :: post) hnodup (by simp)
    ?_ fuel sub [] root (by simp) hagent hsub hf
  intro rc l j hj hall
  rcases j with _ | j'
  · omega
  · rw [List.take_succ_cons,
      bulkBatch_sentinel rc root l sent (post.take j') hsent (fun w hw => (hall w hw).2),
      filter_eq_self_of_allin root l (fun w hw => (hall w hw).1)]

/-- Witness for C5: a batch `[v132, sent139]` — the in-range entry before
the sentinel is returned, the sentinel and everything after it are not,
and the walk ends with no error. -/
theorem bulk_sentinel_stops_wit :
    (BulkWalk (agentDispatch ([v132] ++ sent139 :: [])) 2 "1.3" 2).2
      = some ([v132], none) :=
  bulk_sentinel_stops.2.2 "1.3" 2 2 [v132] [] sent139 (by decide) (by decide)
    (by decide) (by decide) (by decide) (by decide) (by decide)

/-- Claim C6 counterexample: the batch `[sent139, v135]` is non-empty and
its last variable `v135` is in range and not the sentinel, so the claim's
condition demands a recursion — but the loop returns at the interior
sentinel `sent139` and never recurses: with a probe recursion that would
log a request event, the trace stays empty and the result is empty with
no error. -/
theorem bulk_last_in_range_no_recursion :
    bulkBatch rcProbe "1.3" [sent139, v135] = ([], some ([], none)) ∧
    hasPfx v135.Name "1.3" = true ∧ v135.Value ≠ endOfMibValue ∧
    (rcProbe v135.Name).1 ≠ [] :=
  ⟨by decide, by decide, by decide, by decide⟩

/-- Claim C6 (amended): a further `GetBulk` (recursion) is issued if and
only if the batch is non-empty, contains NO end-of-tree sentinel value,
and its last variable's name begins with the root OID.  In that case the
seed is the last variable's name and the recursive results are appended
after the batch's in-range emissions (on a recursion error, the error is
returned with the batch's emissions and the sub-results dropped).  If
the last variable is out of range (and no sentinel precedes it), the
walk stops with the batch's in-range variables — all of them, not only a
prefix — and performs no second request; a sentinel anywhere stops the
batch without recursing; an empty batch stops without recursing. -/
theorem bulk_recursion_condition (root : String) :
    (∀ (rc : String → List Ev × Option (List SnmpPDU × Option SnmpError))
        (l : List SnmpPDU) (v : SnmpPDU),
        (∀ w ∈ l, w.Value ≠ endOfMibValue) → v.Value ≠ endOfMibValue →
        hasPfx v.Name root = true →
        bulkBatch rc root (l ++ [v]) =
          ((rc v.Name).1,
           match (rc v.Name).2 with
           | none => none
           | some (_, some e) =>
              some (l.filter (fun u => hasPfx u.Name root) ++ [v], some e)
           | some (sub, none) =>
              some (l.filter (fun u => hasPfx u.Name root) ++ v :: sub, none))) ∧
    (∀ (rc : String → List Ev × Option (List SnmpPDU × Option SnmpError))
        (l : List SnmpPDU) (v : SnmpPDU),
        (∀ w ∈ l, w.Value ≠ endOfMibValue) → hasPfx v.Name root = false →
        bulkBatch rc root (l ++ [v])
          = ([], some (l.filter (fun u => hasPfx u.Name root), none))) ∧
    (∀ (rc : String → List Ev × Option (List SnmpPDU × Option SnmpError))
        (l : List SnmpPDU) (v : SnmpPDU) (rest : List SnmpPDU),
        v.Value = endOfMibValue → (∀ w ∈ l, w.Value ≠ endOfMibValue) →
        (bulkBatch rc root (l ++ v :: rest)).1 = []) ∧
    (∀ rc : String → List Ev × Option (List SnmpPDU × Option SnmpError),
        bulkBatch rc root [] = ([], some ([], none))) :=
  ⟨fun rc l v hl hv hp => bulkBatch_lastIn rc root l v hl hv hp,
   fun rc l v hl hp => bulkBatch_lastOut rc root l v hl hp,
   fun rc l v rest hv hl => by rw [bulkBatch_sentinel rc root l v rest hv hl],
   fun rc => rfl⟩

/-- Witness for the amended C6 theorem: an out-of-range last variable
stops the batch with its in-range emissions and no recursion. -/
theorem bulk_recursion_condition_wit :
    bulkBatch rcProbe "1.3" ([v132] ++ [succ24])
      = ([], some (List.filter (fun u => hasPfx u.Name "1.3") [v132], none)) :=
  (bulk_recursion_condition "1.3").2.1 rcProbe [v132] succ24 (by decide) (by decide)

/-- Claim C7 counterexample: against an agent serving one in-range entry
and nothing after it, the second `GetBulk` fails, yet `BulkWalk` returns
the first batch's variable `v132` TOGETHER with the error — the
partially accumulated results are not discarded. -/
theorem bulkWalk_error_keeps_partial :
    (BulkWalk (agentDispatch [v132]) 2 "1.3" 3).2
      = some ([v132], some SnmpError.noResponse) ∧
    ([v132] : List SnmpPDU) ≠ [] :=
  ⟨by decide, by decide⟩

/-- One `_bulkWalk` level whose batch is `l ++ [v]` (no sentinel, `v` in
range) and whose recursive call comes back with an error — from whatever
depth it arose — returns its own filtered batch together with that
error, dropping the recursion's partial results `sub`. -/
theorem bulkWalkAux_error_step (d : Dispatch) (m fuel : Nat) (root oid : String)
    (pkt : SnmpPacket) (l sub : List SnmpPDU) (v : SnmpPDU) (e : SnmpError)
    (h1 : d.getBulk 0 m oid = (some pkt, none))
    (hvars : pkt.Variables = l ++ [v])
    (hl : ∀ w ∈ l, w.Value ≠ endOfMibValue) (hv : v.Value ≠ endOfMibValue)
    (hp : hasPfx v.Name root = true)
    (h2 : (bulkWalkAux d m root fuel v.Name).2 = some (sub, some e)) :
    (bulkWalkAux d m root (fuel+1) oid).2
      = some (l.filter (fun u => hasPfx u.Name root) ++ [v], some e) := by
  rw [bulkWalkAux_ok d m root fuel oid pkt h1, hvars]
  show (bulkBatch (bulkWalkAux d m root fuel) root (l ++ [v])).2 = _
  rw [bulkBatch_lastIn (bulkWalkAux d m root fuel) root l v hl hv hp]
  show (match (bulkWalkAux d m root fuel v.Name).2 with
        | none => none
        | some (_, some e) =>
            some (l.filter (fun u => hasPfx u.Name root) ++ [v], some e)
        | some (sub, none) =>
            some (l.filter (fun u => hasPfx u.Name root) ++ v :: sub, none))
      = some (l.filter (fun u => hasPfx u.Name root) ++ [v], some e)
  rw [h2]

/-- Claim C7 (amended): a dispatch error at ANY recursion depth aborts
the walk and surfaces the error, but not with an empty result: at every
level whose recursive call returns an error (from arbitrary depth), the
level keeps its own filtered batch and drops the recursion's partial
results `sub`; consequently the `BulkWalk` caller receives the outermost
batch's in-range variables alongside the error, with all deeper batches'
results discarded. -/
theorem bulkWalk_error_partial :
    (∀ (d : Dispatch) (m fuel : Nat) (root oid : String) (pkt : SnmpPacket)
        (l sub : List SnmpPDU) (v : SnmpPDU) (e : SnmpError),
        d.getBulk 0 m oid = (some pkt, none) → pkt.Variables = l ++ [v] →
        (∀ w ∈ l, w.Value ≠ endOfMibValue) → v.Value ≠ endOfMibValue →
        hasPfx v.Name root = true →
        (bulkWalkAux d m root fuel v.Name).2 = some (sub, some e) →
        (bulkWalkAux d m root (fuel+1) oid).2
          = some (l.filter (fun u => hasPfx u.Name root) ++ [v], some e)) ∧
    (∀ (d : Dispatch) (m fuel : Nat) (root : String) (pkt : SnmpPacket)
        (l sub : List SnmpPDU) (v : SnmpPDU) (e : SnmpError),
        root ≠ "" →
        d.getBulk 0 m root = (some pkt, none) → pkt.Variables = l ++ [v] →
        (∀ w ∈ l, w.Value ≠ endOfMibValue) → v.Value ≠ endOfMibValue →
        hasPfx v.Name root = true →
        (bulkWalkAux d m root fuel v.Name).2 = some (sub, some e) →
        (BulkWalk d m root (fuel+1)).2
          = some (l.filter (fun u => hasPfx u.Name root) ++ [v], some e) ∧
        l.filter (fun u => hasPfx u.Name root) ++ [v] ≠ []) := by
  constructor
  · exact fun d m fuel root oid pkt l sub v e h1 hvars hl hv hp h2 =>
      bulkWalkAux_error_step d m fuel root oid pkt l sub v e h1 hvars hl hv hp h2
  · intro d m fuel root pkt l sub v e hroot h1 hvars hl hv hp h2
    constructor
    · rw [BulkWalk, if_neg hroot]
      exact bulkWalkAux_error_step d m fuel root root pkt l sub v e h1 hvars hl hv hp h2
    · simp

/-- Witness for the amended C7 theorem: the error arises at depth three
(the third `GetBulk` fails), and the deeper batch's variable `v133` —
already gathered at depth two — is dropped: the caller receives only the
outermost batch's `v132` together with the error. -/
theorem bulkWalk_error_partial_wit :
    (BulkWalk (agentDispatch [v132, v133]) 1 "1.3" (2 + 1)).2
      = some (List.filter (fun u => hasPfx u.Name "1.3") [] ++ [v132],
          some SnmpError.noResponse) ∧
    List.filter (fun u => hasPfx u.Name "1.3") [] ++ [v132] ≠ [] :=
  bulkWalk_error_partial.2 (agentDispatch [v132, v133]) 1 2 "1.3" pktV132 [] [v133] v132
    SnmpError.noResponse (by decide) (by decide) (by decide) (by decide) (by decide)
    (by decide) (by decide)

/-- Claim C10: the sequential walk never inspects a variable's value for
the end-of-tree sentinel — a returned variable whose value equals the
sentinel but whose name passes the in-range check is emitted as an
ordinary result by `Walk` (appended) and `StreamWalk` (pushed), and the
walk continues from its name; the bulk walk's batch loop, by contrast,
terminates at that same variable. -/
theorem seq_walk_ignores_sentinel :
    (∀ (d : Dispatch) (root : String) (fuel : Nat) (cursor : String) (pkt : SnmpPacket)
        (v : SnmpPDU) (vs : List SnmpPDU),
        d.getNext cursor = (some pkt, none) → pkt.Variables = v :: vs →
        containsSub v.Name root = true → v.Value = endOfMibValue →
        (walkAux d root (fuel+1) cursor).2
          = Option.map (fun p => (v :: p.1, p.2)) (walkAux d root fuel v.Name).2) ∧
    (∀ (d : Dispatch) (root : String) (fuel : Nat) (cursor : String) (pkt : SnmpPacket)
        (v : SnmpPDU) (vs : List SnmpPDU),
        d.getNext cursor = (some pkt, none) → pkt.Variables = v :: vs →
        containsSub v.Name root = true → v.Value = endOfMibValue →
        (streamWalkAux d root (fuel+1) cursor).1
          = Ev.req cursor :: Ev.emit v :: (streamWalkAux d root fuel v.Name).1) ∧
    (∀ (rc : String → List Ev × Option (List SnmpPDU × Option SnmpError)) (root : String)
        (v : SnmpPDU) (rest : List SnmpPDU), v.Value = endOfMibValue →
        bulkBatch rc root (v :: rest) = ([], some ([], none))) :=
  ⟨fun d root fuel cursor pkt v vs hget hvars hc _ => by
      rw [walkAux_in d root fuel cursor pkt v vs hget hvars hc],
   fun d root fuel cursor pkt v vs hget hvars hc _ => by
      rw [streamWalkAux_in d root fuel cursor pkt v vs hget hvars hc],
   fun rc root v rest hv => by rw [bulkBatch, if_pos hv]⟩

/-- Witness for C10: a sentinel-valued in-range variable is emitted and
the walk moves its cursor there. -/
theorem seq_walk_ignores_sentinel_wit :
    (walkAux (agentDispatch [sent137]) "1.3" (1+1) "1.3").2
      = Option.map (fun p => (sent137 :: p.1, p.2))
          (walkAux (agentDispatch [sent137]) "1.3" 1 sent137.Name).2 :=
  seq_walk_ignores_sentinel.1 (agentDispatch [sent137]) "1.3" 1 "1.3" pkt137 sent137 []
    (by decide) (by decide) (by decide) (by decide)
